import Mathlib

-- Verification of the sensor-fusion pipeline in vridge_psvr.py
-- (repository JonStratton/pyPSVR, src/example4_vridge_sensors/vridge_psvr.py).
-- Each definition is a shallow embedding of the corresponding piece of the
-- Python source; theorems check the natural-language specification against it.

-- ---------------------------------------------------------------------------
-- Timestamp reconciliation (lines 143-160 of the calibration loop and
-- lines 192-210 of the fusion loop; both loops contain the same code).
-- The retained previous timestamp variable is `time2`, initialised to 0 at
-- line 66.  Sub-frame 1 (lines 143-150 / 193-200): the new raw timestamp is
-- `time1`; if `time1 < time2` then `time2 -= 1 << 24`; then a Python
-- truthiness test `if time2:` selects either the real difference or the
-- 500 microsecond default.  Sub-frame 2 (lines 157-160 / 207-210): the new
-- raw timestamp is `time2`; if `time2 < time1` then `time1 -= 1 << 24`;
-- there is no zero test on this path.

def time2Init : ℤ := 0

def reconcile1 (time2 : ℤ) (time1 : ℕ) : ℚ :=
  let t2 := if (time1 : ℤ) < time2 then time2 - 2 ^ 24 else time2
  if t2 = 0 then 500 / 1000000 else (((time1 : ℤ) - t2 : ℤ) : ℚ) / 1000000

def reconcile2 (time1 : ℤ) (time2 : ℕ) : ℚ :=
  let t1 := if (time2 : ℤ) < time1 then time1 - 2 ^ 24 else time1
  (((time2 : ℤ) - t1 : ℤ) : ℚ) / 1000000

-- Chained reconciliation of a list of raw timestamps against a retained
-- previous value: after each step the raw value just read becomes the
-- retained previous value, exactly as the loops overwrite time1/time2.
def reconcileDeltas : ℤ → List ℕ → List ℚ
  | _, [] => []
  | prev, t :: ts => reconcile1 prev t :: reconcileDeltas (t : ℤ) ts

-- The wrap-corrected true elapsed time between two 24-bit counter readings,
-- as the specification words it: add 2^24 to the newer value when the
-- counter wrapped, then difference and divide by 1e6.
def trueDelta (tprev : ℤ) (tnew : ℕ) : ℚ :=
  ((((tnew : ℤ) + (if (tnew : ℤ) < tprev then 2 ^ 24 else 0)) - tprev : ℤ) : ℚ) / 1000000

/-- Claim C3 (counterexample): with 16777200 retained as previous value, the
timestamps 16777215, 5, 20 give only three reconciled deltas, and they are
not the claimed four values 15, 10, 6, 15 microseconds. -/
theorem wraparound_sequence_counterexample :
    reconcileDeltas 16777200 [16777215, 5, 20] ≠
      [15 / 1000000, 10 / 1000000, 6 / 1000000, 15 / 1000000] := by
  intro h
  have hlen := congrArg List.length h
  simp [reconcileDeltas] at hlen

/-- Claim C3 (amended): with 16777200 as the first retained previous value,
the raw timestamps 16777215, 5, 20 yield the three reconciled deltas 15, 6
and 15 microseconds (the pair crossing the 2^24 boundary yields
2^24 - 16777215 + 5 = 6), and every delta is positive. -/
theorem wraparound_sequence_amended :
    reconcileDeltas 16777200 [16777215, 5, 20] =
      [15 / 1000000, 6 / 1000000, 15 / 1000000] ∧
    ∀ d ∈ reconcileDeltas 16777200 [16777215, 5, 20], 0 < d := by
  have he : reconcileDeltas 16777200 [16777215, 5, 20] =
      [15 / 1000000, 6 / 1000000, 15 / 1000000] := by
    norm_num [reconcileDeltas, reconcile1]
  refine ⟨he, ?_⟩
  rw [he]
  intro d hd
  simp only [List.mem_cons, List.not_mem_nil, or_false] at hd
  rcases hd with h | h | h <;> rw [h] <;> norm_num

theorem wraparound_sequence_witness :
    (6 / 1000000 : ℚ) ∈ reconcileDeltas 16777200 [16777215, 5, 20] ∧
    (0 : ℚ) < 6 / 1000000 := by
  have hm : (6 / 1000000 : ℚ) ∈ reconcileDeltas 16777200 [16777215, 5, 20] := by
    norm_num [reconcileDeltas, reconcile1]
  exact ⟨hm, wraparound_sequence_amended.2 _ hm⟩

/-- Claim C4: for raw 24-bit counter values, neither sub-frame reconciliation
ever computes a negative elapsed interval: when the new value is numerically
below the retained previous one, 2^24 is subtracted from the older value
before differencing, and the first-sample default is positive. -/
theorem reconcile_delta_nonneg (prev : ℤ) (tnew : ℕ)
    (h0 : 0 ≤ prev) (h1 : prev < 2 ^ 24) (h2 : (tnew : ℤ) < 2 ^ 24) :
    0 ≤ reconcile1 prev tnew ∧ 0 ≤ reconcile2 prev tnew := by
  constructor
  · unfold reconcile1
    by_cases hw : (tnew : ℤ) < prev
    · have hne : ¬ (prev - 2 ^ 24 = 0) := by omega
      simp only [hw, if_true, hne, if_false]
      apply div_nonneg _ (by norm_num)
      have hn : 0 ≤ (tnew : ℤ) - (prev - 2 ^ 24) := by omega
      exact_mod_cast hn
    · by_cases hz : prev = 0
      · simp only [hw, if_false, hz, if_true]
        norm_num
      · simp only [hw, if_false, hz, if_true]
        apply div_nonneg _ (by norm_num)
        have hn : 0 ≤ (tnew : ℤ) - prev := by omega
        exact_mod_cast hn
  · unfold reconcile2
    by_cases hw : (tnew : ℤ) < prev
    · simp only [hw, if_true]
      apply div_nonneg _ (by norm_num)
      have hn : 0 ≤ (tnew : ℤ) - (prev - 2 ^ 24) := by omega
      exact_mod_cast hn
    · simp only [hw, if_false]
      apply div_nonneg _ (by norm_num)
      have hn : 0 ≤ (tnew : ℤ) - prev := by omega
      exact_mod_cast hn

theorem reconcile_delta_nonneg_witness :
    ((0 : ℤ) ≤ 5 ∧ (5 : ℤ) < 2 ^ 24 ∧ ((3 : ℕ) : ℤ) < 2 ^ 24) ∧
    0 ≤ reconcile1 5 3 ∧ 0 ≤ reconcile2 5 3 := by
  refine ⟨by norm_num, reconcile_delta_nonneg 5 3 (by norm_num) (by norm_num) (by norm_num)⟩

/-- Claim C5: with no prior timestamp state (time2 still holding its initial
value 0 from line 66), the sub-frame-1 reconciliation returns exactly
500 / 1000000 = 0.0005 seconds, for every value of the first raw timestamp. -/
theorem first_sample_default_delta (t : ℕ) :
    reconcile1 time2Init t = 500 / 1000000 := by
  unfold reconcile1 time2Init
  have h1 : ¬ ((t : ℤ) < 0) := not_lt.mpr (Int.natCast_nonneg t)
  simp [h1]

/-- Claim C10: a retained previous raw timestamp equal to 0 — a legitimate
24-bit counter value — is indistinguishable from the no-predecessor state,
because the test at line 196 is a Python truthiness test `if time2:`; the
reconciler then returns the 0.0005 second default, which differs from the
true difference (tnew - 0) / 1e6 whenever the new timestamp is not 500. -/
theorem zero_timestamp_truthiness (t : ℕ) :
    reconcile1 0 t = 500 / 1000000 ∧
    (t ≠ 500 → reconcile1 0 t ≠ (t : ℚ) / 1000000) := by
  have h1 : ¬ ((t : ℤ) < 0) := not_lt.mpr (Int.natCast_nonneg t)
  have hd : reconcile1 0 t = 500 / 1000000 := by
    unfold reconcile1
    simp [h1]
  refine ⟨hd, fun hne h => hne ?_⟩
  rw [hd] at h
  have h5 : (500 : ℚ) = (t : ℚ) := by
    field_simp at h
    exact_mod_cast h
  exact_mod_cast h5.symm

theorem zero_timestamp_truthiness_witness :
    (7 ≠ 500) ∧
    reconcile1 0 7 = 500 / 1000000 ∧
    reconcile1 0 7 ≠ (7 : ℚ) / 1000000 := by
  exact ⟨by norm_num, (zero_timestamp_truthiness 7).1,
    (zero_timestamp_truthiness 7).2 (by norm_num)⟩

-- ---------------------------------------------------------------------------
-- Frame encoder (lines 111-130 and 221-229).  Each construct Struct is three
-- little-endian 32-bit constants (version 2, a type tag, DataLength 24)
-- followed by `Padded(64, Array(n, Float32l))`: the n serialized floats
-- (4 bytes each, little-endian) padded with zero bytes to a 64-byte data
-- area.  We model each 32-bit float by its IEEE-754 bit pattern, a natural
-- number below 2^32, since only the byte layout matters here.

def u32le (n : ℕ) : List ℕ :=
  [n % 2 ^ 8, n / 2 ^ 8 % 2 ^ 8, n / 2 ^ 16 % 2 ^ 8, n / 2 ^ 24 % 2 ^ 8]

def floatBytes : List ℕ → List ℕ
  | [] => []
  | w :: ws => u32le w ++ floatBytes ws

def padTo64 (bs : List ℕ) : List ℕ :=
  bs ++ List.replicate (64 - bs.length) 0

def buildFrame (ty : ℕ) (ws : List ℕ) : List ℕ :=
  u32le 2 ++ u32le ty ++ u32le 24 ++ padTo64 (floatBytes ws)

def anglesposition_build (ws : List ℕ) : List ℕ := buildFrame 3 ws

def quaternionposition_build (ws : List ℕ) : List ℕ := buildFrame 4 ws

def justposition_build (ws : List ℕ) : List ℕ := buildFrame 5 ws

-- Payload assembly in the main loop.  Line 223: angle mode sends
-- (pitch, yaw, roll) ++ position.  Line 228: quaternion mode reorders the
-- internal elements (w, x, y, z) to (y, z, x, w) before appending position.
def angleWire (p y r px py pz : ℕ) : List ℕ := [p, y, r, px, py, pz]

def quatWire (w x y z px py pz : ℕ) : List ℕ := [y, z, x, w, px, py, pz]

theorem floatBytes_length (ws : List ℕ) : (floatBytes ws).length = 4 * ws.length := by
  induction ws with
  | nil => simp [floatBytes]
  | cons w ws ih =>
      simp [floatBytes, u32le, ih]
      ring

/-- Claim C2 (counterexample): encoding produces 76-byte frames, not 64-byte
frames (the 64-byte padding applies to the data area only, after the 12-byte
header); moreover in quaternion mode the bytes just beyond the declared
24-byte payload length hold the seventh float and are not always zero. -/
theorem frame_encoder_size_counterexample :
    (anglesposition_build (angleWire 0 0 0 0 0 0)).length = 76 ∧
    (anglesposition_build (angleWire 0 0 0 0 0 0)).length ≠ 64 ∧
    (quaternionposition_build (quatWire 0 0 0 0 0 0 7)).getD 36 0 = 7 := by
  refine ⟨by decide, by decide, by decide⟩

/-- Claim C2 (amended): encoding in each of the three modes produces a
76-byte frame: a 12-byte little-endian header (version 2, type tag 3 / 4 / 5,
declared length 24) followed by a 64-byte data area holding the 6 / 7 / 3
little-endian 32-bit floats and then zero bytes for the rest of the data
area; quaternion mode reorders the internal (w,x,y,z) to (qY,qZ,qX,qW)
before the position. -/
theorem frame_encoder_layout_amended (ws6 ws7 ws3 : List ℕ)
    (h6 : ws6.length = 6) (h7 : ws7.length = 7) (h3 : ws3.length = 3) :
    anglesposition_build ws6 =
      [2, 0, 0, 0, 3, 0, 0, 0, 24, 0, 0, 0] ++ (floatBytes ws6 ++ List.replicate 40 0) ∧
    (anglesposition_build ws6).length = 76 ∧
    (floatBytes ws6).length = 24 ∧
    quaternionposition_build ws7 =
      [2, 0, 0, 0, 4, 0, 0, 0, 24, 0, 0, 0] ++ (floatBytes ws7 ++ List.replicate 36 0) ∧
    (quaternionposition_build ws7).length = 76 ∧
    (floatBytes ws7).length = 28 ∧
    justposition_build ws3 =
      [2, 0, 0, 0, 5, 0, 0, 0, 24, 0, 0, 0] ++ (floatBytes ws3 ++ List.replicate 52 0) ∧
    (justposition_build ws3).length = 76 ∧
    (floatBytes ws3).length = 12 ∧
    (∀ w x y z px py pz : ℕ, quatWire w x y z px py pz = [y, z, x, w, px, py, pz]) := by
  have l6 : (floatBytes ws6).length = 24 := by rw [floatBytes_length, h6]
  have l7 : (floatBytes ws7).length = 28 := by rw [floatBytes_length, h7]
  have l3 : (floatBytes ws3).length = 12 := by rw [floatBytes_length, h3]
  refine ⟨?_, ?_, l6, ?_, ?_, l7, ?_, ?_, l3, fun _ _ _ _ _ _ _ => rfl⟩
  · simp [anglesposition_build, buildFrame, padTo64, u32le, l6]
  · simp [anglesposition_build, buildFrame, padTo64, u32le, l6]
  · simp [quaternionposition_build, buildFrame, padTo64, u32le, l7]
  · simp [quaternionposition_build, buildFrame, padTo64, u32le, l7]
  · simp [justposition_build, buildFrame, padTo64, u32le, l3]
  · simp [justposition_build, buildFrame, padTo64, u32le, l3]

theorem frame_encoder_layout_witness :
    (([10, 20, 30, 40, 50, 60] : List ℕ).length = 6 ∧
     ([1, 2, 3, 4, 5, 6, 7] : List ℕ).length = 7 ∧
     ([8, 9, 11] : List ℕ).length = 3) ∧
    (anglesposition_build [10, 20, 30, 40, 50, 60]).length = 76 ∧
    quaternionposition_build [1, 2, 3, 4, 5, 6, 7] =
      [2, 0, 0, 0, 4, 0, 0, 0, 24, 0, 0, 0] ++
        (floatBytes [1, 2, 3, 4, 5, 6, 7] ++ List.replicate 36 0) ∧
    (justposition_build [8, 9, 11]).length = 76 := by
  have h := frame_encoder_layout_amended [10, 20, 30, 40, 50, 60] [1, 2, 3, 4, 5, 6, 7]
    [8, 9, 11] (by decide) (by decide) (by decide)
  exact ⟨⟨by decide, by decide, by decide⟩, h.2.1, h.2.2.2.1, h.2.2.2.2.2.2.2.1⟩

-- ---------------------------------------------------------------------------
-- Gyro conversion factor (lines 63-64) and the angular rate handed to the
-- orientation filter (lines 203-204 and 213-214):
--   GYRO_FACTOR = np.array((1, 1, -1)) * ((1998.0/(1<<15)) * (np.pi/180.0))
--   ahrs.update_imu((np.array(frame["gyro"]) - gcomp) * GYRO_FACTOR, ...)

noncomputable def gyroScale : ℝ := (1998 / 2 ^ 15) * (Real.pi / 180)

noncomputable def GYRO_FACTOR : ℝ × ℝ × ℝ :=
  (1 * gyroScale, 1 * gyroScale, (-1) * gyroScale)

def ACC_FACTOR : ℤ × ℤ × ℤ := (1, 1, -1)

-- Bias state gcomp, initialised to the integer zero vector at line 68; the
-- calibration stage overwrites it with a real-valued vector when enabled.
def gcompInit : ℝ × ℝ × ℝ := (0, 0, 0)

noncomputable def fusionGyro (raw : ℤ × ℤ × ℤ) (gcomp : ℝ × ℝ × ℝ) : ℝ × ℝ × ℝ :=
  (((raw.1 : ℝ) - gcomp.1) * GYRO_FACTOR.1,
   ((raw.2.1 : ℝ) - gcomp.2.1) * GYRO_FACTOR.2.1,
   ((raw.2.2 : ℝ) - gcomp.2.2) * GYRO_FACTOR.2.2)

/-- Claim C1 (counterexample): the per-count scale factor in GYRO_FACTOR is
not (250 / 2^15) * (pi / 180): the source multiplies by 1998.0 / (1 << 15),
not by the 250 degree/second span named in the comment at line 59. -/
theorem gyro_factor_scale_counterexample :
    GYRO_FACTOR.1 ≠ (250 / 2 ^ 15) * (Real.pi / 180) := by
  unfold GYRO_FACTOR gyroScale
  intro h
  simp only [one_mul] at h
  have hpi := Real.pi_pos
  nlinarith [h, hpi]

/-- Claim C1 (amended): on every axis the magnitude of the per-count gyro
scale equals (1998 / 2^15) * (pi / 180) radians per second per count — the
code maps a 1998 degree/second span, not 250 — with the fixed per-axis sign
flips (1, 1, -1); and the rate handed to the orientation filter is
(raw - gcomp) * GYRO_FACTOR componentwise, so with zero bias it is raw
counts times that scale. -/
theorem gyro_factor_scale_amended :
    |GYRO_FACTOR.1| = (1998 / 2 ^ 15) * (Real.pi / 180) ∧
    |GYRO_FACTOR.2.1| = (1998 / 2 ^ 15) * (Real.pi / 180) ∧
    |GYRO_FACTOR.2.2| = (1998 / 2 ^ 15) * (Real.pi / 180) ∧
    GYRO_FACTOR.2.2 = -GYRO_FACTOR.1 ∧
    (∀ raw : ℤ × ℤ × ℤ, fusionGyro raw gcompInit =
      ((raw.1 : ℝ) * GYRO_FACTOR.1, (raw.2.1 : ℝ) * GYRO_FACTOR.2.1,
       (raw.2.2 : ℝ) * GYRO_FACTOR.2.2)) := by
  have hpos : 0 ≤ (1998 / 2 ^ 15) * (Real.pi / 180) := by
    have := Real.pi_pos
    positivity
  refine ⟨?_, ?_, ?_, ?_, ?_⟩
  · unfold GYRO_FACTOR gyroScale
    simp only [one_mul]
    exact abs_of_nonneg hpos
  · unfold GYRO_FACTOR gyroScale
    simp only [one_mul]
    exact abs_of_nonneg hpos
  · unfold GYRO_FACTOR gyroScale
    simp only [neg_one_mul]
    rw [abs_neg]
    exact abs_of_nonneg hpos
  · unfold GYRO_FACTOR
    simp
  · intro raw
    unfold fusionGyro gcompInit
    simp


-- ---------------------------------------------------------------------------
-- Calibration stage (lines 134-168).  Each loop iteration reads one 64-byte
-- block, reconciles the two sub-frame timestamps exactly as the fusion loop
-- does, adds both raw gyro triples to the running sum `gcomp`, adds both
-- deltas to `comptime`, and after processing the whole block tests
-- `if comptime > 5:`; when that strict test succeeds it replaces gcomp by
-- gcomp * GYRO_FACTOR / comptime and breaks out of the loop for good.

structure Packet where
  t1 : ℕ
  g1 : ℤ × ℤ × ℤ
  t2 : ℕ
  g2 : ℤ × ℤ × ℤ

structure CalibSt where
  time2 : ℤ
  gcomp : ℤ × ℤ × ℤ
  comptime : ℚ

def v3add (a b : ℤ × ℤ × ℤ) : ℤ × ℤ × ℤ :=
  (a.1 + b.1, a.2.1 + b.2.1, a.2.2 + b.2.2)

-- Initial state: time2 = 0 (line 66), gcomp = (0,0,0) (line 68),
-- comptime = 0 (line 134).
def initCalib : CalibSt := ⟨0, (0, 0, 0), 0⟩

def calibPacket (st : CalibSt) (p : Packet) : CalibSt :=
  ⟨(p.t2 : ℤ),
   v3add (v3add st.gcomp p.g1) p.g2,
   st.comptime + reconcile1 st.time2 p.t1 + reconcile2 (p.t1 : ℤ) p.t2⟩

noncomputable def biasOf (st : CalibSt) : ℝ × ℝ × ℝ :=
  ((st.gcomp.1 : ℝ) * GYRO_FACTOR.1 / (st.comptime : ℝ),
   (st.gcomp.2.1 : ℝ) * GYRO_FACTOR.2.1 / (st.comptime : ℝ),
   (st.gcomp.2.2 : ℝ) * GYRO_FACTOR.2.2 / (st.comptime : ℝ))

noncomputable def calibLoop : CalibSt → List Packet → CalibSt × Option (ℝ × ℝ × ℝ)
  | st, [] => (st, none)
  | st, p :: ps =>
      let st2 := calibPacket st p
      if 5 < st2.comptime then (st2, some (biasOf st2)) else calibLoop st2 ps

def sumGyro : List Packet → ℤ × ℤ × ℤ
  | [] => (0, 0, 0)
  | p :: ps => v3add (v3add p.g1 p.g2) (sumGyro ps)

theorem v3add_zero_right (a : ℤ × ℤ × ℤ) : v3add a (0, 0, 0) = a := by
  obtain ⟨x, y, z⟩ := a
  simp [v3add]

theorem v3add_reassoc (a b c d : ℤ × ℤ × ℤ) :
    v3add (v3add (v3add a b) c) d = v3add a (v3add (v3add b c) d) := by
  simp only [v3add, Prod.mk.injEq]
  refine ⟨by ring, by ring, by ring⟩

theorem foldl_calibPacket_gcomp (qs : List Packet) :
    ∀ st : CalibSt, (List.foldl calibPacket st qs).gcomp = v3add st.gcomp (sumGyro qs) := by
  induction qs with
  | nil =>
      intro st
      rw [List.foldl_nil, sumGyro, v3add_zero_right]
  | cons p ps ih =>
      intro st
      rw [List.foldl_cons, ih, sumGyro]
      exact v3add_reassoc st.gcomp p.g1 p.g2 (sumGyro ps)

theorem foldl_calibPacket_concat_time2 (qs : List Packet) (p : Packet) (st : CalibSt) :
    (List.foldl calibPacket st (qs ++ [p])).time2 = (p.t2 : ℤ) := by
  rw [List.foldl_append]
  rfl

theorem calibLoop_sound (ps : List Packet) :
    ∀ (st stf : CalibSt) (bias : ℝ × ℝ × ℝ), st.comptime ≤ 5 →
      calibLoop st ps = (stf, some bias) →
      ∃ qs rest, ps = qs ++ rest ∧ qs ≠ [] ∧
        stf = List.foldl calibPacket st qs ∧
        5 < stf.comptime ∧
        (∀ k, k < qs.length → (List.foldl calibPacket st (qs.take k)).comptime ≤ 5) ∧
        bias = biasOf stf := by
  induction ps with
  | nil =>
      intro st stf bias _ h
      simp [calibLoop] at h
  | cons p ps ih =>
      intro st stf bias hle h
      rw [calibLoop] at h
      by_cases hth : 5 < (calibPacket st p).comptime
      · rw [if_pos hth] at h
        injection h with h1 h2
        injection h2 with h2
        refine ⟨[p], ps, rfl, by simp, ?_, ?_, ?_, ?_⟩
        · rw [List.foldl_cons, List.foldl_nil]
          exact h1.symm
        · rw [← h1]
          exact hth
        · intro k hk
          have hk1 : k < 1 := by simpa using hk
          have hk0 : k = 0 := by omega
          subst hk0
          simpa using hle
        · rw [← h2, h1]
      · rw [if_neg hth] at h
        have hle2 : (calibPacket st p).comptime ≤ 5 := le_of_not_lt hth
        obtain ⟨qs, rest, hsplit, hqne, hstf, hgt, hmin, hbias⟩ :=
          ih (calibPacket st p) stf bias hle2 h
        refine ⟨p :: qs, rest, by rw [hsplit]; rfl, by simp, ?_, hgt, ?_, hbias⟩
        · rw [List.foldl_cons]
          exact hstf
        · intro k hk
          cases k with
          | zero => simpa using hle
          | succ j =>
              have hj : j < qs.length := by simpa using hk
              have hm := hmin j hj
              simpa [List.foldl_cons] using hm

/-- Claim C6: when gyro compensation is enabled the calibration stage
consumes packets, accumulating raw angular-rate sums and reconciled elapsed
time, until the accumulated time strictly exceeds 5 seconds — never earlier
(every proper prefix of what it consumed has accumulated time at most 5) —
at which point the bias equals (summed angular rate * GYRO_FACTOR) divided
by the accumulated seconds, componentwise, and the remaining packets are
left untouched for the fusion loop; when compensation is disabled gcomp
stays the zero vector and every sample reaches the filter as
raw * GYRO_FACTOR, unmodified by any bias. -/
theorem calibration_stage_behavior (ps : List Packet) (stf : CalibSt)
    (bias : ℝ × ℝ × ℝ) (h : calibLoop initCalib ps = (stf, some bias)) :
    (∃ qs rest, ps = qs ++ rest ∧ qs ≠ [] ∧
      stf = List.foldl calibPacket initCalib qs ∧
      stf.gcomp = sumGyro qs ∧
      (∀ k, k < qs.length →
        (List.foldl calibPacket initCalib (qs.take k)).comptime ≤ 5)) ∧
    5 < stf.comptime ∧
    bias.1 = (stf.gcomp.1 : ℝ) * GYRO_FACTOR.1 / (stf.comptime : ℝ) ∧
    bias.2.1 = (stf.gcomp.2.1 : ℝ) * GYRO_FACTOR.2.1 / (stf.comptime : ℝ) ∧
    bias.2.2 = (stf.gcomp.2.2 : ℝ) * GYRO_FACTOR.2.2 / (stf.comptime : ℝ) ∧
    (∀ raw : ℤ × ℤ × ℤ, fusionGyro raw gcompInit =
      ((raw.1 : ℝ) * GYRO_FACTOR.1, (raw.2.1 : ℝ) * GYRO_FACTOR.2.1,
       (raw.2.2 : ℝ) * GYRO_FACTOR.2.2)) := by
  have hinit : initCalib.comptime ≤ 5 := by norm_num [initCalib]
  obtain ⟨qs, rest, hsplit, hqne, hstf, hgt, hmin, hbias⟩ :=
    calibLoop_sound ps initCalib stf bias hinit h
  have hg : stf.gcomp = sumGyro qs := by
    rw [hstf, foldl_calibPacket_gcomp]
    show v3add (0, 0, 0) (sumGyro qs) = sumGyro qs
    obtain ⟨x, y, z⟩ := sumGyro qs
    simp [v3add]
  refine ⟨⟨qs, rest, hsplit, hqne, hstf, hg, hmin⟩, hgt, ?_, ?_, ?_, ?_⟩
  · rw [hbias]; rfl
  · rw [hbias]; rfl
  · rw [hbias]; rfl
  · intro raw
    unfold fusionGyro gcompInit
    simp

def c6packet : Packet := ⟨500, (3, 3, 3), 6000000, (3, 3, 3)⟩

def c6state : CalibSt := ⟨6000000, (6, 6, 6), 6⟩

theorem calibLoop_c6packet :
    calibLoop initCalib [c6packet] = (c6state, some (biasOf c6state)) := by
  rw [calibLoop]
  have hst : calibPacket initCalib c6packet = c6state := by
    unfold calibPacket initCalib c6packet c6state reconcile1 reconcile2 v3add
    norm_num
  rw [hst]
  rw [if_pos (by norm_num [c6state])]

theorem calibration_stage_behavior_witness :
    calibLoop initCalib [c6packet] = (c6state, some (biasOf c6state)) ∧
    5 < c6state.comptime ∧
    (biasOf c6state).1 = (c6state.gcomp.1 : ℝ) * GYRO_FACTOR.1 / (c6state.comptime : ℝ) := by
  exact ⟨calibLoop_c6packet,
    (calibration_stage_behavior [c6packet] c6state (biasOf c6state) calibLoop_c6packet).2.1,
    (calibration_stage_behavior [c6packet] c6state (biasOf c6state) calibLoop_c6packet).2.2.1⟩

/-- Claim C8 (counterexample): after a completed calibration pass the
retained previous-timestamp state time2 is not reset to 0 — it carries the
last calibration sub-frame timestamp (here 6000000) into the fusion loop —
and the first post-calibration reconciliation returns the true elapsed time
(here 1000 microseconds), not the 500 microsecond default. -/
theorem fusion_loop_time2_counterexample :
    (calibLoop initCalib [c6packet]).1.time2 = 6000000 ∧
    reconcile1 ((calibLoop initCalib [c6packet]).1.time2) 6001000 = 1000 / 1000000 ∧
    (1000 / 1000000 : ℚ) ≠ 500 / 1000000 := by
  have h1 : (calibLoop initCalib [c6packet]).1.time2 = 6000000 := by
    rw [calibLoop_c6packet]
    rfl
  refine ⟨h1, ?_, by norm_num⟩
  rw [h1]
  norm_num [reconcile1]

/-- Claim C8 (amended): after the calibration pass completes, the fusion
loop starts with time2 carrying over the last calibration sub-frame
timestamp (no reset to 0 happens), and whenever that carried value is a
nonzero 24-bit counter value the first post-calibration reconciliation
computes the true wrap-corrected elapsed time, not the 500 microsecond
default. -/
theorem fusion_loop_time2_carryover_amended (ps : List Packet) (stf : CalibSt)
    (bias : ℝ × ℝ × ℝ) (h : calibLoop initCalib ps = (stf, some bias)) :
    (∃ qs pl rest, ps = (qs ++ [pl]) ++ rest ∧ stf.time2 = (pl.t2 : ℤ)) ∧
    (∀ (tprev : ℤ) (tnew : ℕ), 0 < tprev → tprev < 2 ^ 24 →
      reconcile1 tprev tnew = trueDelta tprev tnew) := by
  constructor
  · have hinit : initCalib.comptime ≤ 5 := by norm_num [initCalib]
    obtain ⟨qs, rest, hsplit, hqne, hstf, _, _, _⟩ :=
      calibLoop_sound ps initCalib stf bias hinit h
    rcases List.eq_nil_or_concat' qs with hnil | ⟨qs0, pl, hcat⟩
    · exact absurd hnil hqne
    · refine ⟨qs0, pl, rest, by rw [hsplit, hcat], ?_⟩
      rw [hstf, hcat, foldl_calibPacket_concat_time2]
  · intro tprev tnew hpos hlt
    unfold reconcile1 trueDelta
    by_cases hw : (tnew : ℤ) < tprev
    · have hne : ¬ (tprev - 2 ^ 24 = 0) := by omega
      simp only [hw, if_true, hne, if_false]
      congr 1
      push_cast
      ring
    · have hne : ¬ (tprev = 0) := by omega
      simp only [hw, if_false, hne]
      norm_num

theorem fusion_loop_time2_witness :
    calibLoop initCalib [c6packet] = (c6state, some (biasOf c6state)) ∧
    c6state.time2 = (c6packet.t2 : ℤ) ∧
    reconcile1 6000000 6001000 = trueDelta 6000000 6001000 := by
  have h := fusion_loop_time2_carryover_amended [c6packet] c6state (biasOf c6state)
    calibLoop_c6packet
  have h2 : c6state.time2 = (c6packet.t2 : ℤ) := by norm_num [c6state, c6packet]
  have h3 : reconcile1 6000000 6001000 = trueDelta 6000000 6001000 :=
    h.2 6000000 6001000 (by norm_num) (by norm_num)
  exact ⟨calibLoop_c6packet, h2, h3⟩

-- ---------------------------------------------------------------------------
-- Orientation filter.  The MadgwickAHRS class used at lines 179 and 203-214
-- comes from the locally cloned madgwickahrs.py, which is not part of the
-- sources here; the definitions below therefore embed the filter from the
-- specification text (gradient-descent IMU fusion, section 4.4).

structure Quat4 where
  w : ℝ
  x : ℝ
  y : ℝ
  z : ℝ

def nsq (q : Quat4) : ℝ := q.w ^ 2 + q.x ^ 2 + q.y ^ 2 + q.z ^ 2

noncomputable def qadd (a b : Quat4) : Quat4 := ⟨a.w + b.w, a.x + b.x, a.y + b.y, a.z + b.z⟩

noncomputable def qsub (a b : Quat4) : Quat4 := ⟨a.w - b.w, a.x - b.x, a.y - b.y, a.z - b.z⟩

noncomputable def qsmul (c : ℝ) (q : Quat4) : Quat4 := ⟨c * q.w, c * q.x, c * q.y, c * q.z⟩

noncomputable def qmul (a b : Quat4) : Quat4 :=
  ⟨a.w * b.w - a.x * b.x - a.y * b.y - a.z * b.z,
   a.w * b.x + a.x * b.w + a.y * b.z - a.z * b.y,
   a.w * b.y - a.x * b.z + a.y * b.w + a.z * b.x,
   a.w * b.z + a.x * b.y - a.y * b.x + a.z * b.w⟩

def v3nsq (v : ℝ × ℝ × ℝ) : ℝ := v.1 ^ 2 + v.2.1 ^ 2 + v.2.2 ^ 2

/-- Modelled from the spec: safe vector normalization ("normalize
acceleration"; degenerate zero-magnitude input is left untouched because the
specification requires the accelerometer correction to be skipped rather
than dividing by zero). -/
noncomputable def v3normalize (v : ℝ × ℝ × ℝ) : ℝ × ℝ × ℝ :=
  if v3nsq v = 0 then v
  else (v.1 / Real.sqrt (v3nsq v), v.2.1 / Real.sqrt (v3nsq v), v.2.2 / Real.sqrt (v3nsq v))

/-- Modelled from the spec: safe quaternion normalization used for the
gradient step and implicitly required by "never produce NaN/Inf". -/
noncomputable def qnormalize (q : Quat4) : Quat4 :=
  if nsq q = 0 then q else qsmul (1 / Real.sqrt (nsq q)) q

-- Filter gain beta = 0.1, line 179.
noncomputable def betaGain : ℝ := 1 / 10

/-- Modelled from the spec: the analytically-derived quaternion gradient of
the error between the gravity direction predicted by q and the measured
(normalized) acceleration — the standard Madgwick IMU objective function
and transposed Jacobian. -/
noncomputable def madgwickGrad (q : Quat4) (ah : ℝ × ℝ × ℝ) : Quat4 :=
  ⟨-2 * q.y * (2 * (q.x * q.z - q.w * q.y) - ah.1) +
     2 * q.x * (2 * (q.w * q.x + q.y * q.z) - ah.2.1),
   2 * q.z * (2 * (q.x * q.z - q.w * q.y) - ah.1) +
     2 * q.w * (2 * (q.w * q.x + q.y * q.z) - ah.2.1) -
     4 * q.x * (2 * (1 / 2 - q.x ^ 2 - q.y ^ 2) - ah.2.2),
   -2 * q.w * (2 * (q.x * q.z - q.w * q.y) - ah.1) +
     2 * q.z * (2 * (q.w * q.x + q.y * q.z) - ah.2.1) -
     4 * q.y * (2 * (1 / 2 - q.x ^ 2 - q.y ^ 2) - ah.2.2),
   2 * q.x * (2 * (q.x * q.z - q.w * q.y) - ah.1) +
     2 * q.y * (2 * (q.w * q.x + q.y * q.z) - ah.2.1)⟩

/-- Modelled from the spec: the quaternion rate of change — the gyro
integration term 0.5 * q * (0, gx, gy, gz), minus the beta-weighted
normalized gradient step when the acceleration is usable; with zero
acceleration the filter integrates gyro only. -/
noncomputable def madgwickQdot (q : Quat4) (g a : ℝ × ℝ × ℝ) : Quat4 :=
  if a = (0, 0, 0) then qsmul (1 / 2) (qmul q ⟨0, g.1, g.2.1, g.2.2⟩)
  else qsub (qsmul (1 / 2) (qmul q ⟨0, g.1, g.2.1, g.2.2⟩))
    (qsmul betaGain (qnormalize (madgwickGrad q (v3normalize a))))

/-- Modelled from the spec: integrate the rate over dt and re-normalize the
result; a vanishing candidate is left as the previous state, matching the
requirement that the update never produce a non-finite quaternion. -/
noncomputable def integrateStep (q qdot : Quat4) (dt : ℝ) : Quat4 :=
  if nsq (qadd q (qsmul dt qdot)) = 0 then q
  else qsmul (1 / Real.sqrt (nsq (qadd q (qsmul dt qdot)))) (qadd q (qsmul dt qdot))

/-- Modelled from the spec: one update_imu call — a zero-or-negative
delta-time is a no-op, otherwise gyro integration blended with the
gradient-descent accelerometer correction followed by re-normalization. -/
noncomputable def madgwickUpdate (q : Quat4) (g a : ℝ × ℝ × ℝ) (dt : ℝ) : Quat4 :=
  if dt ≤ 0 then q else integrateStep q (madgwickQdot q g a) dt

-- Initial orientation: refq = Quaternion(1, 0, 0, 0), lines 174 and 179.
def refq : Quat4 := ⟨1, 0, 0, 0⟩

noncomputable def runAhrs (inputs : List ((ℝ × ℝ × ℝ) × (ℝ × ℝ × ℝ) × ℝ)) : Quat4 :=
  List.foldl (fun q i => madgwickUpdate q i.1 i.2.1 i.2.2) refq inputs

theorem nsq_nonneg (q : Quat4) : 0 ≤ nsq q := by
  unfold nsq
  positivity

theorem nsq_qsmul (c : ℝ) (q : Quat4) : nsq (qsmul c q) = c ^ 2 * nsq q := by
  unfold nsq qsmul
  ring

theorem integrateStep_nsq (q qdot : Quat4) (dt : ℝ) (h : nsq q = 1) :
    nsq (integrateStep q qdot dt) = 1 := by
  unfold integrateStep
  by_cases hc : nsq (qadd q (qsmul dt qdot)) = 0
  · rw [if_pos hc]
    exact h
  · rw [if_neg hc]
    have hpos : 0 < nsq (qadd q (qsmul dt qdot)) :=
      lt_of_le_of_ne (nsq_nonneg _) (Ne.symm hc)
    rw [nsq_qsmul, div_pow, one_pow, Real.sq_sqrt hpos.le, one_div,
      inv_mul_cancel₀ hc]

theorem madgwickUpdate_nsq (q : Quat4) (g a : ℝ × ℝ × ℝ) (dt : ℝ) (h : nsq q = 1) :
    nsq (madgwickUpdate q g a dt) = 1 := by
  unfold madgwickUpdate
  by_cases hdt : dt ≤ 0
  · rw [if_pos hdt]
    exact h
  · rw [if_neg hdt]
    exact integrateStep_nsq q (madgwickQdot q g a) dt h

theorem foldl_madgwick_nsq (inputs : List ((ℝ × ℝ × ℝ) × (ℝ × ℝ × ℝ) × ℝ)) :
    ∀ q : Quat4, nsq q = 1 →
      nsq (List.foldl (fun q i => madgwickUpdate q i.1 i.2.1 i.2.2) q inputs) = 1 := by
  induction inputs with
  | nil =>
      intro q h
      simpa using h
  | cons i ins ih =>
      intro q h
      rw [List.foldl_cons]
      exact ih _ (madgwickUpdate_nsq q i.1 i.2.1 i.2.2 h)

/-- Claim C7: starting from the unit quaternion (1,0,0,0), the orientation
filter state has unit norm after every sequence of update calls — in this
exact-real embedding of the spec's gradient-descent filter the squared norm
is exactly 1, so the norm is within 1e-6 of 1.0 after any sequence of
updates (in particular any 1000 finite inputs with non-zero acceleration
and positive delta-time). -/
theorem ahrs_quaternion_unit_norm (inputs : List ((ℝ × ℝ × ℝ) × (ℝ × ℝ × ℝ) × ℝ)) :
    nsq (runAhrs inputs) = 1 ∧
    |Real.sqrt (nsq (runAhrs inputs)) - 1| ≤ 1 / 1000000 := by
  have h1 : nsq (runAhrs inputs) = 1 := by
    unfold runAhrs
    apply foldl_madgwick_nsq
    unfold nsq refq
    norm_num
  refine ⟨h1, ?_⟩
  rw [h1, Real.sqrt_one]
  norm_num

-- ---------------------------------------------------------------------------
-- Raw read guard and packet decode (lines 138-142 and 188-192).  Both loops
-- run `data = Sensor.read(64)` and skip the tick only when `data == None`;
-- any non-None block is passed to `sensor.parse(data[16:32])` and
-- `sensor.parse(data[32:48])`.  A Python slice truncates silently, and
-- construct raises a stream error when fewer bytes remain than the 16-byte
-- Struct needs (Int32ul timestamp, then three Int16sl gyro and three
-- Int16sl acc values, all little-endian).

def pySlice (l : List ℕ) (a b : ℕ) : List ℕ := (l.drop a).take (b - a)

def u32parse (bs : List ℕ) (o : ℕ) : ℕ :=
  bs.getD o 0 + 2 ^ 8 * bs.getD (o + 1) 0 + 2 ^ 16 * bs.getD (o + 2) 0 +
    2 ^ 24 * bs.getD (o + 3) 0

def int16sl (bs : List ℕ) (o : ℕ) : ℤ :=
  if bs.getD o 0 + 2 ^ 8 * bs.getD (o + 1) 0 < 2 ^ 15 then
    ((bs.getD o 0 + 2 ^ 8 * bs.getD (o + 1) 0 : ℕ) : ℤ)
  else ((bs.getD o 0 + 2 ^ 8 * bs.getD (o + 1) 0 : ℕ) : ℤ) - 2 ^ 16

def sensorParse (bs : List ℕ) : Option (ℕ × (ℤ × ℤ × ℤ) × (ℤ × ℤ × ℤ)) :=
  if bs.length < 16 then none
  else some (u32parse bs 0,
    (int16sl bs 4, int16sl bs 6, int16sl bs 8),
    (int16sl bs 10, int16sl bs 12, int16sl bs 14))

inductive TickResult where
  | retry : TickResult
  | raised : TickResult
  | processed : ℕ × (ℤ × ℤ × ℤ) × (ℤ × ℤ × ℤ) → ℕ × (ℤ × ℤ × ℤ) × (ℤ × ℤ × ℤ) → TickResult
deriving DecidableEq

def tick (read : Option (List ℕ)) : TickResult :=
  match read with
  | none => TickResult.retry
  | some data =>
      match sensorParse (pySlice data 16 32), sensorParse (pySlice data 32 48) with
      | some f1, some f2 => TickResult.processed f1 f2
      | _, _ => TickResult.raised

/-- Claim C9 (counterexample): a short raw read — here 20 bytes, fewer than
the 64 of a full block — is not discarded: it passes the `data == None`
guard and the parse of the truncated slice raises out of the loop instead
of retrying. -/
theorem read_guard_counterexample :
    (List.replicate 20 (0 : ℕ)).length < 64 ∧
    tick (some (List.replicate 20 (0 : ℕ))) ≠ TickResult.retry ∧
    tick (some (List.replicate 20 (0 : ℕ))) = TickResult.raised := by
  refine ⟨by decide, by decide, by decide⟩

/-- Claim C9 (amended): only an absent (None) raw read is discarded so the
loop re-polls on the next tick; a short block is not guarded: any non-None
read of fewer than 48 bytes makes the slice-and-parse raise out of the
loop, and a read of 48 or more bytes is processed as if complete. -/
theorem read_guard_amended :
    tick none = TickResult.retry ∧
    (∀ d : List ℕ, d.length < 48 → tick (some d) = TickResult.raised) ∧
    (∀ d : List ℕ, 48 ≤ d.length →
      ∃ f1 f2, tick (some d) = TickResult.processed f1 f2) := by
  refine ⟨rfl, ?_, ?_⟩
  · intro d hd
    have hlen : (pySlice d 32 48).length < 16 := by
      simp only [pySlice, List.length_take, List.length_drop]
      omega
    have h2 : sensorParse (pySlice d 32 48) = none := by
      unfold sensorParse
      rw [if_pos hlen]
    rcases h1 : sensorParse (pySlice d 16 32) with _ | f1 <;>
      simp [tick, h1, h2]
  · intro d hd
    have hl1 : ¬ ((pySlice d 16 32).length < 16) := by
      simp only [pySlice, List.length_take, List.length_drop]
      omega
    have hl2 : ¬ ((pySlice d 32 48).length < 16) := by
      simp only [pySlice, List.length_take, List.length_drop]
      omega
    have h1 : sensorParse (pySlice d 16 32) = some (u32parse (pySlice d 16 32) 0,
        (int16sl (pySlice d 16 32) 4, int16sl (pySlice d 16 32) 6,
          int16sl (pySlice d 16 32) 8),
        (int16sl (pySlice d 16 32) 10, int16sl (pySlice d 16 32) 12,
          int16sl (pySlice d 16 32) 14)) := by
      unfold sensorParse
      rw [if_neg hl1]
    have h2 : sensorParse (pySlice d 32 48) = some (u32parse (pySlice d 32 48) 0,
        (int16sl (pySlice d 32 48) 4, int16sl (pySlice d 32 48) 6,
          int16sl (pySlice d 32 48) 8),
        (int16sl (pySlice d 32 48) 10, int16sl (pySlice d 32 48) 12,
          int16sl (pySlice d 32 48) 14)) := by
      unfold sensorParse
      rw [if_neg hl2]
    refine ⟨(u32parse (pySlice d 16 32) 0,
        (int16sl (pySlice d 16 32) 4, int16sl (pySlice d 16 32) 6,
          int16sl (pySlice d 16 32) 8),
        (int16sl (pySlice d 16 32) 10, int16sl (pySlice d 16 32) 12,
          int16sl (pySlice d 16 32) 14)),
      (u32parse (pySlice d 32 48) 0,
        (int16sl (pySlice d 32 48) 4, int16sl (pySlice d 32 48) 6,
          int16sl (pySlice d 32 48) 8),
        (int16sl (pySlice d 32 48) 10, int16sl (pySlice d 32 48) 12,
          int16sl (pySlice d 32 48) 14)), ?_⟩
    simp [tick, h1, h2]

theorem read_guard_witness :
    (List.replicate 10 (0 : ℕ)).length < 48 ∧
    tick (some (List.replicate 10 (0 : ℕ))) = TickResult.raised := by
  exact ⟨by decide, read_guard_amended.2.1 (List.replicate 10 (0 : ℕ)) (by decide)⟩
